import Mathlib

/-!
# Verification of the USSR `GlobalLeaderboard` (objects/leaderboard.py)

A shallow embedding of the in-memory ranked leaderboard cache:
the bounded ordered score mapping `_scores` (a Python `dict`, insertion
ordered, modelled as an association list), the unbounded participant list
`users`, and the operations `__set_data_from_sql` / `refresh`,
`insert_user_score`, `remove_user_score`, `get_user_placement`,
`user_in_top`, `from_db` and `from_md5`.  External collaborators (the SQL
store, the beatmap resolver, the global cache) are passed in as explicit
arguments.
-/

/-- `SIZE_LIMIT = 150`: maximum score objects that can be stored. -/
def SIZE_LIMIT : Nat := 150

/-- One row of the ranked score query.  The source keeps raw tuples and
reads them at `SCORING_IDX = 1` (the active ranking field), `USERNAME_IDX
= 12` and `USER_ID_IDX = 13`; the remaining columns are opaque payload the
core never inspects, so only the three read fields are carried. -/
structure ScoreRow where
  user_id : Nat
  username : String
  scoring : Int
deriving DecidableEq

/-- The slice of the resolved `Beatmap` collaborator the leaderboard core
reads: only `has_leaderboard`. -/
structure Beatmap where
  has_leaderboard : Bool
deriving DecidableEq

/-- `FetchStatus` provenance tags (consts/statuses.py collaborator). -/
inductive FetchStatus where
  | NONE
  | CACHE
  | MYSQL
  | API
deriving DecidableEq

/-- The slice of the `Score` object (objects/score.py collaborator) read by
`insert_user_score`: `s.user_id`, `s.username`, `s.pp`, `s.score`. -/
structure Score where
  user_id : Nat
  username : String
  pp : Int
  score : Int
deriving DecidableEq

/-- Modelled from the spec: `Score.as_score_tuple` lives in the
`objects/score.py` collaborator, outside the given sources.  Per the spec
(§3), the stored record's ranking value is the performance value when the
variant uses a performance board, else the raw score; this matches the
`scoring` selection at the insertion site. -/
def Score.as_score_tuple (s : Score) (pp_board : Bool) : ScoreRow :=
  { user_id := s.user_id
    username := s.username
    scoring := if pp_board then s.pp else s.score }

/-- The `GlobalLeaderboard` dataclass.  `c_mode` is read only through
`c_mode.uses_ppboard` and `c_mode.db_table` (the latter only to build the
SQL text), so the former is carried as a Bool.  `_scores` is a Python dict
keyed by user id, insertion ordered: an association list. -/
structure GlobalLeaderboard where
  uses_ppboard : Bool
  _scores : List (Nat × ScoreRow)
  users : List Nat
  total_scores : Nat
  bmap : Beatmap
  bmap_fetch : FetchStatus
  lb_fetch : FetchStatus
deriving DecidableEq

/-- Python dict assignment `d[k] = v`: update in place (keeping the key's
position) when the key exists, else append at the end. -/
def dictAssign (d : List (Nat × ScoreRow)) (k : Nat) (v : ScoreRow) :
    List (Nat × ScoreRow) :=
  if d.any (fun p => p.1 == k) then
    d.map (fun p => if p.1 == k then (k, v) else p)
  else d ++ [(k, v)]

/-- `has_scores` property: `not not self.users`. -/
def GlobalLeaderboard.has_scores (lb : GlobalLeaderboard) : Bool :=
  !lb.users.isEmpty

/-- `scores` property: `self._scores.values()`. -/
def GlobalLeaderboard.scores (lb : GlobalLeaderboard) : List ScoreRow :=
  lb._scores.map Prod.snd

/-- `user_in_top`: `user_id in self._scores`. -/
def GlobalLeaderboard.user_in_top (lb : GlobalLeaderboard) (user_id : Nat) :
    Bool :=
  lb._scores.any (fun p => p.1 == user_id)

/-- `user_has_score`: `user_id in self.users`. -/
def GlobalLeaderboard.user_has_score (lb : GlobalLeaderboard)
    (user_id : Nat) : Bool :=
  lb.users.any (fun u => u == user_id)

/-- `get_user_score`: `self._scores[user_id]`; `none` models the
`KeyError` raised when the user has no top entry. -/
def GlobalLeaderboard.get_user_score (lb : GlobalLeaderboard)
    (user_id : Nat) : Option ScoreRow :=
  (lb._scores.find? (fun p => p.1 == user_id)).map Prod.snd

/-- The loop body of `__set_data_from_sql`: `for idx, score in
enumerate(scores_db)`, storing the row in `_scores` only when
`idx + 1 < SIZE_LIMIT` and appending every `user_id` to `users`. -/
def setScoresLoop : Nat → List ScoreRow → List (Nat × ScoreRow) →
    List Nat → List (Nat × ScoreRow) × List Nat
  | _, [], sc, us => (sc, us)
  | idx, score :: rest, sc, us =>
      setScoresLoop (idx + 1) rest
        (if idx + 1 < SIZE_LIMIT then dictAssign sc score.user_id score
         else sc)
        (us ++ [score.user_id])

/-- `__set_data_from_sql`, with the rows returned by `__fetch_scores`
(the SQL collaborator) passed in: sets `total_scores` to the full result
length, clears and refills `_scores` and `users`, marks `lb_fetch`. -/
def GlobalLeaderboard.set_data_from_sql (lb : GlobalLeaderboard)
    (scores_db : List ScoreRow) : GlobalLeaderboard :=
  let filled := setScoresLoop 0 scores_db [] []
  { lb with
    total_scores := scores_db.length
    _scores := filled.1
    users := filled.2
    lb_fetch := FetchStatus.MYSQL }

/-- `refresh`: reload from the store only when the beatmap has an enabled
leaderboard. -/
def GlobalLeaderboard.refresh (lb : GlobalLeaderboard)
    (scores_db : List ScoreRow) : GlobalLeaderboard :=
  if lb.bmap.has_leaderboard then lb.set_data_from_sql scores_db else lb

/-- `get_user_placement`: `self.users.index(user_id) + 1`; `none` models
the `ValueError` raised when the user is absent. -/
def GlobalLeaderboard.get_user_placement (lb : GlobalLeaderboard)
    (user_id : Nat) : Option Nat :=
  (lb.users.findIdx? (fun u => u == user_id)).map (· + 1)

/-- `remove_user_score`: guarded by `user_id in self._scores`; deletes the
dict entry and removes the first matching element of `users`. -/
def GlobalLeaderboard.remove_user_score (lb : GlobalLeaderboard)
    (user_id : Nat) : GlobalLeaderboard :=
  if lb.user_in_top user_id then
    { lb with
      _scores := lb._scores.filter (fun p => p.1 != user_id)
      users := lb.users.erase user_id }
  else lb

/-- The positioning loop of `insert_user_score`: `place_idx` starts at -1
and is set to the index of the first stored score whose value at
`SCORING_IDX` is strictly below the new value (`none` models -1). -/
def find_place_idx : List (Nat × ScoreRow) → Int → Option Nat
  | [], _ => none
  | p :: rest, scoring =>
      if p.2.scoring < scoring then some 0
      else (find_place_idx rest scoring).map (· + 1)

/-- The first statement of `insert_user_score`: remove the user's old
entry when they are already in the top. -/
def insert_lb1 (lb : GlobalLeaderboard) (s : Score) : GlobalLeaderboard :=
  if lb.user_in_top s.user_id then lb.remove_user_score s.user_id else lb

/-- The new ranking value: `s.pp if self.c_mode.uses_ppboard else
s.score`. -/
def insert_scoring (lb1 : GlobalLeaderboard) (s : Score) : Int :=
  if lb1.uses_ppboard then s.pp else s.score

/-- The rebuilt `score_dict`: the first `place_idx` dict entries, the new
entry, then the remaining entries. -/
def insert_dict (lb1 : GlobalLeaderboard) (s : Score) (place_idx : Nat) :
    List (Nat × ScoreRow) :=
  lb1._scores.take place_idx
    ++ [(s.user_id, s.as_score_tuple lb1.uses_ppboard)]
    ++ lb1._scores.drop place_idx

/-- The trim step: when the rebuilt dict exceeds the bound, delete the
entry of the last key of the recomputed `users`. -/
def insert_trim (limit : Nat) (d : List (Nat × ScoreRow)) :
    List (Nat × ScoreRow) :=
  if limit < d.length then
    d.filter (fun p => p.1 != (d.map Prod.fst).getLastD 0)
  else d

/-- `insert_user_score`, with the size bound as a parameter (the source
reads the module constant `SIZE_LIMIT`): remove the user's old top entry
if present, find the insertion point (`place_idx == -1` is an early
return), splice the new entry into the rebuilt dict, recompute `users`
from the dict keys, and trim the last key of `_scores` when the dict
exceeds the bound. -/
def GlobalLeaderboard.insert_user_score_aux (limit : Nat)
    (lb : GlobalLeaderboard) (s : Score) : GlobalLeaderboard :=
  match find_place_idx (insert_lb1 lb s)._scores
      (insert_scoring (insert_lb1 lb s) s) with
  | none => insert_lb1 lb s
  | some place_idx =>
      { insert_lb1 lb s with
        _scores := insert_trim limit (insert_dict (insert_lb1 lb s) s place_idx)
        users := (insert_dict (insert_lb1 lb s) s place_idx).map Prod.fst }

/-- `insert_user_score` at the source's `SIZE_LIMIT`. -/
def GlobalLeaderboard.insert_user_score (lb : GlobalLeaderboard)
    (s : Score) : GlobalLeaderboard :=
  lb.insert_user_score_aux SIZE_LIMIT s

/-- Whether `insert_user_score` finds an insertion point (the branch that
rebuilds `_scores`, as opposed to the `place_idx == -1` early return). -/
def GlobalLeaderboard.insert_qualifies (lb : GlobalLeaderboard)
    (s : Score) : Bool :=
  (find_place_idx (insert_lb1 lb s)._scores
    (insert_scoring (insert_lb1 lb s) s)).isSome

/-- `from_db`, with the collaborators' results passed in: the outcome of
`_try_bmap` (a fetch status and an optional beatmap) and the rows the
store would return.  Builds the empty instance and refreshes it; the
`cache()` side effect touches only the external cache. -/
def GlobalLeaderboard.from_db
    (bmap_result : FetchStatus × Option Beatmap)
    (scores_db : List ScoreRow) (uses_ppboard : Bool) :
    Option GlobalLeaderboard :=
  match bmap_result with
  | (_, none) => none
  | (st, some bmap) =>
      let res : GlobalLeaderboard :=
        { uses_ppboard := uses_ppboard
          _scores := []
          users := []
          total_scores := 0
          bmap := bmap
          bmap_fetch := st
          lb_fetch := FetchStatus.NONE }
      some (res.refresh scores_db)

/-- `from_md5`: try the global cache first (its lookup result passed in,
with the fetch statuses set to `CACHE` on a hit, as `from_cache` does),
then fall back to `from_db`. -/
def GlobalLeaderboard.from_md5 (cached : Option GlobalLeaderboard)
    (bmap_result : FetchStatus × Option Beatmap)
    (scores_db : List ScoreRow) (uses_ppboard : Bool) :
    Option GlobalLeaderboard :=
  match cached with
  | some res =>
      some { res with lb_fetch := FetchStatus.CACHE
                      bmap_fetch := FetchStatus.CACHE }
  | none => from_db bmap_result scores_db uses_ppboard

/-- A freshly constructed leaderboard, as `from_db` builds it before
`refresh`. -/
def emptyLB (bmap : Beatmap) (uses_ppboard : Bool) : GlobalLeaderboard :=
  { uses_ppboard := uses_ppboard
    _scores := []
    users := []
    total_scores := 0
    bmap := bmap
    bmap_fetch := FetchStatus.NONE
    lb_fetch := FetchStatus.NONE }

/-- Well-formedness of a store result, from the query contract (§6): one
`best completion` row per user (distinct user ids) and ordered descending
by the active ranking field. -/
def StoreResultWF (rows : List ScoreRow) : Prop :=
  (rows.map ScoreRow.user_id).Nodup ∧
  rows.Pairwise (fun a b => b.scoring ≤ a.scoring)

instance (rows : List ScoreRow) : Decidable (StoreResultWF rows) := by
  unfold StoreResultWF; infer_instance

/-- States reachable from a fresh instance by `refresh` (with well-formed
store results), `insert_user_score` and `remove_user_score`. -/
inductive Reachable : GlobalLeaderboard → Prop where
  | init (bmap : Beatmap) (pp : Bool) : Reachable (emptyLB bmap pp)
  | refresh {lb : GlobalLeaderboard} (rows : List ScoreRow) :
      Reachable lb → StoreResultWF rows → Reachable (lb.refresh rows)
  | insert {lb : GlobalLeaderboard} (s : Score) :
      Reachable lb → Reachable (lb.insert_user_score s)
  | remove {lb : GlobalLeaderboard} (u : Nat) :
      Reachable lb → Reachable (lb.remove_user_score u)

/-- The structural invariant of a leaderboard: distinct participants, the
dict keys a prefix of `users`, values descending (non-strictly), and the
size bound. -/
def LBInv (lb : GlobalLeaderboard) : Prop :=
  lb.users.Nodup ∧
  (lb._scores.map Prod.fst <+: lb.users) ∧
  lb._scores.Pairwise (fun a b => b.2.scoring ≤ a.2.scoring) ∧
  lb._scores.length ≤ SIZE_LIMIT

/-! ## Concrete states used to evaluate the code -/

/-- A store result of 150 rows: user ids 1..150, strictly descending
values 1000 down to 851. -/
def rows150 : List ScoreRow :=
  (List.range 150).map (fun i => ⟨i + 1, "", (1000 : Int) - i⟩)

/-- The leaderboard after refreshing from `rows150`. -/
def lbC1 : GlobalLeaderboard := (emptyLB ⟨true⟩ false).refresh rows150

/-- Refresh with users 1 and 3 (values 100 and 50), then insert user 2 at
value 100: a tie with the top entry. -/
def lbTie : GlobalLeaderboard :=
  ((emptyLB ⟨true⟩ false).refresh
    [⟨1, "", 100⟩, ⟨3, "", 50⟩]).insert_user_score ⟨2, "", 0, 100⟩

/-- A leaderboard whose only ranked entry is user 2 at value 90. -/
def lbB90 : GlobalLeaderboard :=
  { uses_ppboard := false
    _scores := [(2, ⟨2, "", 90⟩)]
    users := [2]
    total_scores := 1
    bmap := ⟨true⟩
    bmap_fetch := FetchStatus.MYSQL
    lb_fetch := FetchStatus.MYSQL }

/-- A leaderboard whose only ranked entry is user 1 at value 90. -/
def lbC5w : GlobalLeaderboard :=
  { uses_ppboard := false
    _scores := [(1, ⟨1, "", 90⟩)]
    users := [1]
    total_scores := 1
    bmap := ⟨true⟩
    bmap_fetch := FetchStatus.MYSQL
    lb_fetch := FetchStatus.MYSQL }

/-- User 1 ranked at 100; user 2 a participant beyond the ranked set. -/
def lbC6a : GlobalLeaderboard :=
  { uses_ppboard := false
    _scores := [(1, ⟨1, "", 100⟩)]
    users := [1, 2]
    total_scores := 2
    bmap := ⟨true⟩
    bmap_fetch := FetchStatus.MYSQL
    lb_fetch := FetchStatus.MYSQL }

/-- User 1 ranked at 100; user 3 a participant beyond the ranked set. -/
def lbC6b : GlobalLeaderboard :=
  { uses_ppboard := false
    _scores := [(1, ⟨1, "", 100⟩)]
    users := [1, 3]
    total_scores := 7
    bmap := ⟨true⟩
    bmap_fetch := FetchStatus.MYSQL
    lb_fetch := FetchStatus.MYSQL }

/-- Users A(1) at 100 and B(2) at 90, both ranked. -/
def lbAB : GlobalLeaderboard :=
  { uses_ppboard := false
    _scores := [(1, ⟨1, "A", 100⟩), (2, ⟨2, "B", 90⟩)]
    users := [1, 2]
    total_scores := 2
    bmap := ⟨true⟩
    bmap_fetch := FetchStatus.MYSQL
    lb_fetch := FetchStatus.MYSQL }

/-- Users A(1)/B(2)/C(3) at values 100/90/80, all ranked. -/
def lbABC : GlobalLeaderboard :=
  { uses_ppboard := false
    _scores := [(1, ⟨1, "A", 100⟩), (2, ⟨2, "B", 90⟩), (3, ⟨3, "C", 80⟩)]
    users := [1, 2, 3]
    total_scores := 3
    bmap := ⟨true⟩
    bmap_fetch := FetchStatus.MYSQL
    lb_fetch := FetchStatus.MYSQL }

/-! ## Helper lemmas -/

theorem dictAssign_of_not_mem {d : List (Nat × ScoreRow)} {k : Nat}
    (v : ScoreRow) (h : d.any (fun p => p.1 == k) = false) :
    dictAssign d k v = d ++ [(k, v)] := by
  simp [dictAssign, h]

theorem setScoresLoop_snd (rows : List ScoreRow) :
    ∀ (idx : Nat) (sc : List (Nat × ScoreRow)) (us : List Nat),
      (setScoresLoop idx rows sc us).2 = us ++ rows.map ScoreRow.user_id := by
  induction rows with
  | nil => intro idx sc us; simp [setScoresLoop]
  | cons r rest ih =>
      intro idx sc us
      simp [setScoresLoop, ih]

theorem setScoresLoop_fst (rows : List ScoreRow) :
    ∀ (idx : Nat) (sc : List (Nat × ScoreRow)) (us : List Nat),
      (∀ r ∈ rows, sc.any (fun q => q.1 == r.user_id) = false) →
      (rows.map ScoreRow.user_id).Nodup →
      (setScoresLoop idx rows sc us).1
        = sc ++ (rows.take (SIZE_LIMIT - 1 - idx)).map
            (fun r => (r.user_id, r)) := by
  induction rows with
  | nil => intro idx sc us _ _; simp [setScoresLoop]
  | cons r rest ih =>
      intro idx sc us hdisj hnd
      simp only [List.map_cons, List.nodup_cons, List.mem_map] at hnd
      by_cases hidx : idx + 1 < SIZE_LIMIT
      · have hlt : SIZE_LIMIT - 1 - idx = (SIZE_LIMIT - 1 - (idx + 1)) + 1 := by
          omega
        have hsc : dictAssign sc r.user_id r = sc ++ [(r.user_id, r)] :=
          dictAssign_of_not_mem r (hdisj r (by simp))
        have hdisj' : ∀ r' ∈ rest,
            (sc ++ [(r.user_id, r)]).any (fun q => q.1 == r'.user_id) = false := by
          intro r' hr'
          rw [List.any_append]
          have h1 : sc.any (fun q => q.1 == r'.user_id) = false :=
            hdisj r' (by simp [hr'])
          have h2 : (r.user_id == r'.user_id) = false := by
            simp only [beq_eq_false_iff_ne, ne_eq]
            intro hEq
            exact hnd.1 ⟨r', hr', hEq.symm⟩
          simp [h1, h2]
        simp only [setScoresLoop, if_pos hidx, hsc, hlt, List.take_succ_cons,
          List.map_cons]
        rw [ih (idx + 1) (sc ++ [(r.user_id, r)]) (us ++ [r.user_id]) hdisj'
          hnd.2]
        simp
      · have h0 : SIZE_LIMIT - 1 - idx = 0 := by omega
        have h0' : SIZE_LIMIT - 1 - (idx + 1) = 0 := by omega
        simp only [setScoresLoop, if_neg hidx, h0, List.take_zero,
          List.map_nil, List.append_nil]
        rw [ih (idx + 1) sc (us ++ [r.user_id]) (fun r' hr' => hdisj r'
          (by simp [hr'])) hnd.2]
        simp [h0']

theorem set_data_from_sql_spec (lb : GlobalLeaderboard)
    (rows : List ScoreRow) (hnd : (rows.map ScoreRow.user_id).Nodup) :
    (lb.set_data_from_sql rows)._scores
        = (rows.take (SIZE_LIMIT - 1)).map (fun r => (r.user_id, r)) ∧
    (lb.set_data_from_sql rows).users = rows.map ScoreRow.user_id ∧
    (lb.set_data_from_sql rows).total_scores = rows.length := by
  refine ⟨?_, ?_, rfl⟩
  · show (setScoresLoop 0 rows [] []).1 = _
    rw [setScoresLoop_fst rows 0 [] [] (by intro r _; rfl) hnd]
    simp
  · show (setScoresLoop 0 rows [] []).2 = _
    rw [setScoresLoop_snd]
    simp

theorem find_place_idx_some {l : List (Nat × ScoreRow)} {v : Int} :
    ∀ {i : Nat}, find_place_idx l v = some i →
      i < l.length ∧ (∀ y ∈ l.take i, v ≤ y.2.scoring) ∧
      ∃ x suf, l.drop i = x :: suf ∧ x.2.scoring < v := by
  induction l with
  | nil => intro i h; simp [find_place_idx] at h
  | cons p rest ih =>
      intro i h
      by_cases hc : p.2.scoring < v
      · simp only [find_place_idx, if_pos hc, Option.some.injEq] at h
        subst h
        exact ⟨by simp, by simp, p, rest, by simp, hc⟩
      · simp only [find_place_idx, if_neg hc, Option.map_eq_some'] at h
        obtain ⟨j, hj, hij⟩ := h
        obtain ⟨hlen, hpre, x, suf, hdrop, hx⟩ := ih hj
        subst hij
        refine ⟨by simpa using hlen, ?_, x, suf, by simpa using hdrop, hx⟩
        intro y hy
        rw [List.take_succ_cons] at hy
        rcases List.mem_cons.mp hy with hy | hy
        · subst hy; exact not_lt.mp hc
        · exact hpre y hy

theorem find_place_idx_none {l : List (Nat × ScoreRow)} {v : Int}
    (h : ∀ y ∈ l, v ≤ y.2.scoring) : find_place_idx l v = none := by
  induction l with
  | nil => rfl
  | cons p rest ih =>
      have hc : ¬ p.2.scoring < v := not_lt.mpr (h p (by simp))
      simp only [find_place_idx, if_neg hc, Option.map_eq_none']
      exact ih (fun y hy => h y (by simp [hy]))

theorem user_in_top_false_iff (lb : GlobalLeaderboard) (u : Nat) :
    lb.user_in_top u = false ↔ u ∉ lb._scores.map Prod.fst := by
  unfold GlobalLeaderboard.user_in_top
  constructor
  · intro h hmem
    obtain ⟨p, hp, hpu⟩ := List.mem_map.mp hmem
    have hT : lb._scores.any (fun p => p.1 == u) = true :=
      List.any_eq_true.mpr ⟨p, hp, by simp [hpu]⟩
    rw [h] at hT
    exact Bool.false_ne_true hT
  · intro h
    by_contra hne
    have hT : lb._scores.any (fun p => p.1 == u) = true := by
      revert hne
      cases lb._scores.any (fun p => p.1 == u) <;> simp
    obtain ⟨p, hp, hpu⟩ := List.any_eq_true.mp hT
    exact h (List.mem_map.mpr ⟨p, hp, by simpa using hpu⟩)

theorem user_in_top_true_iff (lb : GlobalLeaderboard) (u : Nat) :
    lb.user_in_top u = true ↔ u ∈ lb._scores.map Prod.fst := by
  rw [← Bool.not_eq_false, user_in_top_false_iff]
  simp

theorem keys_filter_ne (l : List (Nat × ScoreRow)) (u : Nat) :
    (l.filter (fun p => p.1 != u)).map Prod.fst
      = (l.map Prod.fst).filter (fun k => k != u) := by
  rw [List.filter_map]
  rfl

theorem LBInv_empty (bmap : Beatmap) (pp : Bool) : LBInv (emptyLB bmap pp) := by
  refine ⟨List.nodup_nil, List.nil_prefix, List.Pairwise.nil, ?_⟩
  simp [emptyLB]

theorem LBInv_set_data (lb : GlobalLeaderboard) (rows : List ScoreRow)
    (hWF : StoreResultWF rows) : LBInv (lb.set_data_from_sql rows) := by
  obtain ⟨hsc, hus, _⟩ := set_data_from_sql_spec lb rows hWF.1
  refine ⟨?_, ?_, ?_, ?_⟩
  · rw [hus]; exact hWF.1
  · rw [hsc, hus]
    have : ((rows.take (SIZE_LIMIT - 1)).map
        (fun r => (r.user_id, r))).map Prod.fst
        = (rows.map ScoreRow.user_id).take (SIZE_LIMIT - 1) := by
      rw [List.map_map, ← List.map_take]
      rfl
    rw [this]
    exact List.take_prefix _ _
  · rw [hsc]
    rw [List.pairwise_map]
    exact List.Pairwise.sublist (List.take_sublist _ _) hWF.2
  · rw [hsc]
    simp only [List.length_map, List.length_take]
    have h1 : SIZE_LIMIT - 1 ≤ SIZE_LIMIT := Nat.sub_le _ _
    exact le_trans (min_le_left _ _) h1

theorem LBInv_refresh (lb : GlobalLeaderboard) (rows : List ScoreRow)
    (h : LBInv lb) (hWF : StoreResultWF rows) : LBInv (lb.refresh rows) := by
  unfold GlobalLeaderboard.refresh
  by_cases hb : lb.bmap.has_leaderboard
  · rw [if_pos hb]; exact LBInv_set_data lb rows hWF
  · rw [if_neg hb]; exact h

theorem LBInv_remove (lb : GlobalLeaderboard) (u : Nat) (h : LBInv lb) :
    LBInv (lb.remove_user_score u) := by
  obtain ⟨hnd, hpre, hpw, hlen⟩ := h
  unfold GlobalLeaderboard.remove_user_score
  by_cases hTop : lb.user_in_top u
  · rw [if_pos hTop]
    obtain ⟨t, ht⟩ := hpre
    have hu : u ∈ lb._scores.map Prod.fst :=
      (user_in_top_true_iff lb u).mp hTop
    have hkeysnd : (lb._scores.map Prod.fst).Nodup :=
      (List.IsPrefix.sublist ⟨t, ht⟩).nodup hnd
    refine ⟨hnd.erase u, ?_,
      List.Pairwise.sublist (List.filter_sublist _) hpw,
      le_trans (List.length_filter_le _ _) hlen⟩
    rw [keys_filter_ne]
    rw [← ht, List.erase_append_left t hu, hkeysnd.erase_eq_filter u]
    exact ⟨t, rfl⟩
  · rw [if_neg hTop]
    exact ⟨hnd, hpre, hpw, hlen⟩

theorem insert_lb1_keys_subset (lb : GlobalLeaderboard) (s : Score) :
    ∀ u ∈ (insert_lb1 lb s)._scores.map Prod.fst,
      u ∈ lb._scores.map Prod.fst := by
  intro u hu
  unfold insert_lb1 at hu
  by_cases hTop : lb.user_in_top s.user_id
  · rw [if_pos hTop] at hu
    unfold GlobalLeaderboard.remove_user_score at hu
    rw [if_pos hTop] at hu
    simp only [keys_filter_ne] at hu
    exact (List.mem_filter.mp hu).1
  · rwa [if_neg hTop] at hu

theorem insert_lb1_not_mem (lb : GlobalLeaderboard) (s : Score) :
    s.user_id ∉ (insert_lb1 lb s)._scores.map Prod.fst := by
  unfold insert_lb1
  by_cases hTop : lb.user_in_top s.user_id
  · rw [if_pos hTop]
    unfold GlobalLeaderboard.remove_user_score
    rw [if_pos hTop]
    simp only [keys_filter_ne]
    intro hmem
    have := (List.mem_filter.mp hmem).2
    simp at this
  · rw [if_neg hTop]
    exact (user_in_top_false_iff lb s.user_id).mp (by simpa using hTop)

theorem insert_lb1_keys_nodup (lb : GlobalLeaderboard) (s : Score)
    (hnd : (lb._scores.map Prod.fst).Nodup) :
    ((insert_lb1 lb s)._scores.map Prod.fst).Nodup := by
  unfold insert_lb1
  by_cases hTop : lb.user_in_top s.user_id
  · rw [if_pos hTop]
    unfold GlobalLeaderboard.remove_user_score
    rw [if_pos hTop]
    simp only [keys_filter_ne]
    exact (List.filter_sublist _).nodup hnd
  · rwa [if_neg hTop]

theorem insert_lb1_LBInv (lb : GlobalLeaderboard) (s : Score)
    (h : LBInv lb) : LBInv (insert_lb1 lb s) := by
  unfold insert_lb1
  by_cases hTop : lb.user_in_top s.user_id
  · rw [if_pos hTop]; exact LBInv_remove lb s.user_id h
  · rwa [if_neg hTop]

theorem filter_ne_lastD (d : List (Nat × ScoreRow)) (hne : d ≠ [])
    (hnd : (d.map Prod.fst).Nodup) :
    d.filter (fun p => p.1 != (d.map Prod.fst).getLastD 0) = d.dropLast := by
  rcases List.eq_nil_or_concat d with rfl | ⟨l, x, rfl⟩
  · exact absurd rfl hne
  · simp only [List.concat_eq_append] at hnd ⊢
    have hkeys : (l ++ [x]).map Prod.fst = l.map Prod.fst ++ [x.1] := by
      simp
    rw [hkeys] at hnd ⊢
    rw [List.getLastD_concat, List.dropLast_concat, List.filter_append]
    have hdisj : x.1 ∉ l.map Prod.fst := by
      intro hmem
      exact (List.nodup_append.mp hnd).2.2 hmem (by simp)
    have h1 : l.filter (fun p => p.1 != x.1) = l := by
      rw [List.filter_eq_self]
      intro p hp
      simp only [bne_iff_ne, ne_eq]
      intro hEq
      exact hdisj (hEq ▸ List.mem_map_of_mem Prod.fst hp)
    have h2 : [x].filter (fun p => p.1 != x.1) = [] := by simp
    rw [h1, h2, List.append_nil]

theorem insert_dict_keys (lb1 : GlobalLeaderboard) (s : Score)
    (pidx : Nat) :
    (insert_dict lb1 s pidx).map Prod.fst
      = (lb1._scores.map Prod.fst).take pidx
        ++ s.user_id :: (lb1._scores.map Prod.fst).drop pidx := by
  simp [insert_dict, List.map_take, List.map_drop, Score.as_score_tuple]

theorem insert_dict_keys_nodup (lb1 : GlobalLeaderboard) (s : Score)
    (pidx : Nat) (hnd : (lb1._scores.map Prod.fst).Nodup)
    (hmem : s.user_id ∉ lb1._scores.map Prod.fst) :
    ((insert_dict lb1 s pidx).map Prod.fst).Nodup := by
  rw [insert_dict_keys, List.nodup_middle, List.take_append_drop,
    List.nodup_cons]
  exact ⟨hmem, hnd⟩

theorem insert_dict_ne_nil (lb1 : GlobalLeaderboard) (s : Score)
    (pidx : Nat) : insert_dict lb1 s pidx ≠ [] := by
  simp [insert_dict]

theorem insert_dict_length (lb1 : GlobalLeaderboard) (s : Score)
    {pidx : Nat} (hpidx : pidx < lb1._scores.length) :
    (insert_dict lb1 s pidx).length = lb1._scores.length + 1 := by
  simp only [insert_dict, List.length_append, List.length_take,
    List.length_drop, List.length_singleton]
  omega

theorem insert_dict_pairwise (lb1 : GlobalLeaderboard) (s : Score)
    {pidx : Nat}
    (hpw : lb1._scores.Pairwise (fun a b => b.2.scoring ≤ a.2.scoring))
    (hfp : find_place_idx lb1._scores (insert_scoring lb1 s) = some pidx) :
    (insert_dict lb1 s pidx).Pairwise
      (fun a b => b.2.scoring ≤ a.2.scoring) := by
  obtain ⟨hlen, hpre, x, suf, hdrop, hx⟩ := find_place_idx_some hfp
  have hval : (s.as_score_tuple lb1.uses_ppboard).scoring
      = insert_scoring lb1 s := rfl
  have hdropAll : ∀ b ∈ lb1._scores.drop pidx,
      b.2.scoring ≤ insert_scoring lb1 s := by
    intro b hb
    rw [hdrop] at hb
    rcases List.mem_cons.mp hb with hb | hb
    · subst hb; exact le_of_lt hx
    · have hpwdrop : (lb1._scores.drop pidx).Pairwise
          (fun a b => b.2.scoring ≤ a.2.scoring) :=
        List.Pairwise.sublist (List.drop_sublist _ _) hpw
      rw [hdrop] at hpwdrop
      have := List.rel_of_pairwise_cons hpwdrop hb
      exact le_of_lt (lt_of_le_of_lt this hx)
  unfold insert_dict
  rw [List.append_assoc, List.pairwise_append]
  refine ⟨List.Pairwise.sublist (List.take_sublist _ _) hpw, ?_, ?_⟩
  · rw [List.singleton_append, List.pairwise_cons]
    refine ⟨?_, List.Pairwise.sublist (List.drop_sublist _ _) hpw⟩
    intro b hb
    rw [hval]
    exact hdropAll b hb
  · intro a ha b hb
    have hva : insert_scoring lb1 s ≤ a.2.scoring := hpre a ha
    rw [List.singleton_append, List.mem_cons] at hb
    rcases hb with hb | hb
    · subst hb; rw [hval]; exact hva
    · exact le_trans (hdropAll b hb) hva

theorem insert_aux_eq_none (limit : Nat) (lb : GlobalLeaderboard)
    (s : Score)
    (hfp : find_place_idx (insert_lb1 lb s)._scores
      (insert_scoring (insert_lb1 lb s) s) = none) :
    lb.insert_user_score_aux limit s = insert_lb1 lb s := by
  unfold GlobalLeaderboard.insert_user_score_aux
  rw [hfp]

theorem insert_aux_eq_some (limit : Nat) (lb : GlobalLeaderboard)
    (s : Score) (pidx : Nat)
    (hfp : find_place_idx (insert_lb1 lb s)._scores
      (insert_scoring (insert_lb1 lb s) s) = some pidx) :
    lb.insert_user_score_aux limit s
      = { insert_lb1 lb s with
          _scores := insert_trim limit (insert_dict (insert_lb1 lb s) s pidx)
          users := (insert_dict (insert_lb1 lb s) s pidx).map Prod.fst } := by
  unfold GlobalLeaderboard.insert_user_score_aux
  rw [hfp]

theorem insert_trim_of_big {limit : Nat} {d : List (Nat × ScoreRow)}
    (hne : d ≠ []) (hnd : (d.map Prod.fst).Nodup)
    (hbig : limit < d.length) : insert_trim limit d = d.dropLast := by
  unfold insert_trim
  rw [if_pos hbig, filter_ne_lastD d hne hnd]

theorem insert_trim_of_small {limit : Nat} {d : List (Nat × ScoreRow)}
    (hsmall : ¬ limit < d.length) : insert_trim limit d = d := by
  unfold insert_trim
  rw [if_neg hsmall]

theorem LBInv_insert (lb : GlobalLeaderboard) (s : Score) (h : LBInv lb) :
    LBInv (lb.insert_user_score s) := by
  have h1 : LBInv (insert_lb1 lb s) := insert_lb1_LBInv lb s h
  unfold GlobalLeaderboard.insert_user_score
  cases hfp : find_place_idx (insert_lb1 lb s)._scores
      (insert_scoring (insert_lb1 lb s) s) with
  | none => rw [insert_aux_eq_none SIZE_LIMIT lb s hfp]; exact h1
  | some pidx =>
      rw [insert_aux_eq_some SIZE_LIMIT lb s pidx hfp]
      obtain ⟨hnd1, hpre1, hpw1, hlen1⟩ := h1
      have hknd1 : ((insert_lb1 lb s)._scores.map Prod.fst).Nodup :=
        (List.IsPrefix.sublist hpre1).nodup hnd1
      have hdknd : ((insert_dict (insert_lb1 lb s) s pidx).map
          Prod.fst).Nodup :=
        insert_dict_keys_nodup _ s pidx hknd1 (insert_lb1_not_mem lb s)
      have hdlen : (insert_dict (insert_lb1 lb s) s pidx).length
          = (insert_lb1 lb s)._scores.length + 1 :=
        insert_dict_length _ s (find_place_idx_some hfp).1
      have hdpw : (insert_dict (insert_lb1 lb s) s pidx).Pairwise
          (fun a b => b.2.scoring ≤ a.2.scoring) :=
        insert_dict_pairwise _ s hpw1 hfp
      by_cases hbig : SIZE_LIMIT < (insert_dict (insert_lb1 lb s) s pidx).length
      · refine ⟨hdknd, ?_, ?_, ?_⟩
        · show (insert_trim SIZE_LIMIT
              (insert_dict (insert_lb1 lb s) s pidx)).map Prod.fst <+: _
          rw [insert_trim_of_big (insert_dict_ne_nil _ s pidx) hdknd hbig,
            List.map_dropLast]
          exact List.dropLast_prefix _
        · show ((insert_trim SIZE_LIMIT
              (insert_dict (insert_lb1 lb s) s pidx))).Pairwise _
          rw [insert_trim_of_big (insert_dict_ne_nil _ s pidx) hdknd hbig]
          exact List.Pairwise.sublist (List.dropLast_sublist _) hdpw
        · show (insert_trim SIZE_LIMIT
              (insert_dict (insert_lb1 lb s) s pidx)).length ≤ _
          rw [insert_trim_of_big (insert_dict_ne_nil _ s pidx) hdknd hbig,
            List.length_dropLast, hdlen]
          simpa using hlen1
      · refine ⟨hdknd, ?_, ?_, ?_⟩
        · show (insert_trim SIZE_LIMIT
              (insert_dict (insert_lb1 lb s) s pidx)).map Prod.fst <+: _
          rw [insert_trim_of_small hbig]
        · show ((insert_trim SIZE_LIMIT
              (insert_dict (insert_lb1 lb s) s pidx))).Pairwise _
          rw [insert_trim_of_small hbig]
          exact hdpw
        · show (insert_trim SIZE_LIMIT
              (insert_dict (insert_lb1 lb s) s pidx)).length ≤ _
          rw [insert_trim_of_small hbig]
          exact not_lt.mp hbig

theorem reachable_LBInv {lb : GlobalLeaderboard} (h : Reachable lb) :
    LBInv lb := by
  induction h with
  | init bmap pp => exact LBInv_empty bmap pp
  | refresh rows _ hWF ih => exact LBInv_refresh _ rows ih hWF
  | insert s _ ih => exact LBInv_insert _ s ih
  | remove u _ ih => exact LBInv_remove _ u ih

theorem indexOf_append_left {u : Nat} {l₁ : List Nat} (l₂ : List Nat)
    (h : u ∈ l₁) : (l₁ ++ l₂).indexOf u = l₁.indexOf u := by
  induction l₁ with
  | nil => cases h
  | cons a rest ih =>
      rw [List.cons_append, List.indexOf_cons, List.indexOf_cons]
      cases hau : (a == u) with
      | true => simp only [cond_true]
      | false =>
          simp only [cond_false]
          have hu : u ∈ rest := by
            rcases List.mem_cons.mp h with h1 | h1
            · exact absurd h1.symm (by simpa using hau)
            · exact h1
          rw [ih hu]

theorem insert_lb1_total (lb : GlobalLeaderboard) (s : Score) :
    (insert_lb1 lb s).total_scores = lb.total_scores := by
  by_cases hTop : lb.user_in_top s.user_id <;>
    simp [insert_lb1, GlobalLeaderboard.remove_user_score, hTop]

theorem get_user_placement_eq_none (lb : GlobalLeaderboard) (u : Nat)
    (h : u ∉ lb.users) : lb.get_user_placement u = none := by
  unfold GlobalLeaderboard.get_user_placement
  rw [List.findIdx?_eq_none_iff.mpr]
  · rfl
  · intro x hx
    simp only [beq_eq_false_iff_ne, ne_eq]
    intro hEq
    exact h (hEq ▸ hx)

/-! ## Claims -/

set_option maxRecDepth 100000 in
/-- **C1**: on a refresh with 150 result rows, every `user_id` lands in
`users` in result order and `total_scores` is the full length — but the
loop guard `idx + 1 < SIZE_LIMIT` stores only the first 149 records in
`_scores`, not the first 150 the claim (and the source's own comment)
state: the 150th-ranked user (id 150) is absent from the ranked set. -/
theorem C1_refresh_stores_only_149 :
    rows150.length = 150 ∧
    lbC1.total_scores = 150 ∧
    lbC1.users = rows150.map ScoreRow.user_id ∧
    rows150.getLast? = some ⟨150, "", 851⟩ ∧
    lbC1._scores.length = 149 ∧
    lbC1.user_in_top 150 = false ∧
    lbC1.user_in_top 149 = true := by
  decide

/-- **C2** (counterexample): a reachable state — refresh with the
descending result [100 (user 1), 50 (user 3)] followed by inserting user 2
at value 100 — whose ranked values [100, 100, 50] are not strictly
descending: the tie is spliced directly after the equal entry. -/
theorem C2_strict_descending_fails :
    Reachable lbTie ∧
    ¬ lbTie._scores.Pairwise (fun a b => b.2.scoring < a.2.scoring) :=
  ⟨Reachable.insert ⟨2, "", 0, 100⟩
    (Reachable.refresh [⟨1, "", 100⟩, ⟨3, "", 50⟩]
      (Reachable.init ⟨true⟩ false) (by decide)),
   by decide⟩

/-- **C2** (amended): in every state reachable by refresh (with a
well-formed descending store result), insert and remove, the ranked
values in mapping order are descending, allowing ties (non-strictly). -/
theorem C2_descending (lb : GlobalLeaderboard) (h : Reachable lb) :
    lb._scores.Pairwise (fun a b => b.2.scoring ≤ a.2.scoring) :=
  (reachable_LBInv h).2.2.1

/-- Witness for C2: a concrete reachable two-entry state is descending. -/
theorem C2_descending_witness :
    ((emptyLB ⟨true⟩ false).refresh
      [⟨1, "", 100⟩, ⟨2, "", 90⟩])._scores.Pairwise
        (fun a b => b.2.scoring ≤ a.2.scoring) :=
  C2_descending _
    (Reachable.refresh [⟨1, "", 100⟩, ⟨2, "", 90⟩]
      (Reachable.init ⟨true⟩ false) (by decide))

/-- **C3**: in every reachable state, every key of `_scores` occurs in
`users`, and its first index in `users` equals its rank position — its
first index in the key sequence of `_scores`. -/
theorem C3_prefix_alignment (lb : GlobalLeaderboard) (h : Reachable lb)
    (u : Nat) (hu : u ∈ lb._scores.map Prod.fst) :
    u ∈ lb.users ∧
    lb.users.indexOf u = (lb._scores.map Prod.fst).indexOf u := by
  obtain ⟨_, hpre, _, _⟩ := reachable_LBInv h
  obtain ⟨t, ht⟩ := hpre
  constructor
  · rw [← ht]
    exact List.mem_append_left t hu
  · rw [← ht]
    exact indexOf_append_left t hu

/-- Witness for C3 at a concrete reachable state and user 2. -/
theorem C3_prefix_alignment_witness :
    (2 : Nat) ∈ ((emptyLB ⟨true⟩ false).refresh
        [⟨1, "", 100⟩, ⟨2, "", 90⟩]).users ∧
    ((emptyLB ⟨true⟩ false).refresh
        [⟨1, "", 100⟩, ⟨2, "", 90⟩]).users.indexOf 2
      = (((emptyLB ⟨true⟩ false).refresh
        [⟨1, "", 100⟩, ⟨2, "", 90⟩])._scores.map Prod.fst).indexOf 2 :=
  C3_prefix_alignment _
    (Reachable.refresh [⟨1, "", 100⟩, ⟨2, "", 90⟩]
      (Reachable.init ⟨true⟩ false) (by decide))
    2 (by decide)

/-- **C4**: in every reachable state, `_scores` holds at most `SIZE_LIMIT`
(150) entries. -/
theorem C4_bound (lb : GlobalLeaderboard) (h : Reachable lb) :
    lb._scores.length ≤ SIZE_LIMIT :=
  (reachable_LBInv h).2.2.2

/-- Witness for C4 at a concrete reachable state. -/
theorem C4_bound_witness :
    ((emptyLB ⟨true⟩ false).refresh
      [⟨1, "", 100⟩, ⟨2, "", 90⟩])._scores.length ≤ SIZE_LIMIT :=
  C4_bound _
    (Reachable.refresh [⟨1, "", 100⟩, ⟨2, "", 90⟩]
      (Reachable.init ⟨true⟩ false) (by decide))

/-- **C5** (counterexample): user 2 holds the only ranked entry at value
90 and submits value 80 — no current entry's value is strictly below the
new value, yet the call is not a no-op for `_scores`: the remove-first
step deletes user 2's old entry before the early return. -/
theorem C5_noop_fails_for_top_user :
    (∀ p ∈ lbB90._scores,
      ¬ p.2.scoring < insert_scoring lbB90 ⟨2, "", 0, 80⟩) ∧
    (lbB90.insert_user_score ⟨2, "", 0, 80⟩)._scores ≠ lbB90._scores := by
  decide

/-- **C5** (amended): for a score from a user *not* currently in
`_scores`, if no current entry's value is strictly below the new value,
`insert_user_score` leaves the whole leaderboard (in particular
`_scores`) unchanged. -/
theorem C5_noop (lb : GlobalLeaderboard) (s : Score)
    (hTop : lb.user_in_top s.user_id = false)
    (hno : ∀ p ∈ lb._scores, ¬ p.2.scoring < insert_scoring lb s) :
    lb.insert_user_score s = lb := by
  have hlb1 : insert_lb1 lb s = lb := by
    simp [insert_lb1, hTop]
  have hfp : find_place_idx (insert_lb1 lb s)._scores
      (insert_scoring (insert_lb1 lb s) s) = none := by
    rw [hlb1]
    exact find_place_idx_none (fun y hy => not_lt.mp (hno y hy))
  unfold GlobalLeaderboard.insert_user_score
  rw [insert_aux_eq_none SIZE_LIMIT lb s hfp, hlb1]

/-- Witness for C5: user 2 (not ranked) submits 80 against a lone entry
of 90; the state is unchanged. -/
theorem C5_noop_witness :
    lbC5w.user_in_top 2 = false ∧
    (∀ p ∈ lbC5w._scores,
      ¬ p.2.scoring < insert_scoring lbC5w ⟨2, "", 0, 80⟩) ∧
    lbC5w.insert_user_score ⟨2, "", 0, 80⟩ = lbC5w :=
  ⟨by decide, by decide, C5_noop lbC5w ⟨2, "", 0, 80⟩ (by decide) (by decide)⟩

/-- **C6** (counterexample): the inserting user themself can be a
participant beyond the ranked set; after their qualifying insert they are
still in `users`, so "every participant who was outside the top before
the call is gone from `all_participants`" fails as stated. -/
theorem C6_beyond_topN_participant_remains :
    lbC6a.insert_qualifies ⟨2, "", 0, 150⟩ = true ∧
    (2 : Nat) ∈ lbC6a.users ∧
    (2 : Nat) ∉ lbC6a._scores.map Prod.fst ∧
    (2 : Nat) ∈ (lbC6a.insert_user_score ⟨2, "", 0, 150⟩).users := by
  decide

/-- **C6** (amended): on a qualifying insert (given distinct dict keys),
`total_scores` is unchanged, `users` becomes exactly the spliced dict's
key sequence (so `_scores`'s keys are that sequence or that sequence
minus the one evicted last key), and every participant other than the
inserting user who was in `users` but outside `_scores` before the call
is gone from `users` and subsequently has no placement. -/
theorem C6_insert_users_rebuilt (lb : GlobalLeaderboard) (s : Score)
    (hnd : (lb._scores.map Prod.fst).Nodup)
    (hq : lb.insert_qualifies s = true) :
    (lb.insert_user_score s).total_scores = lb.total_scores ∧
    ((lb.insert_user_score s)._scores.map Prod.fst
        = (lb.insert_user_score s).users ∨
      (lb.insert_user_score s)._scores.map Prod.fst
        = (lb.insert_user_score s).users.dropLast) ∧
    ∀ u ∈ lb.users, u ∉ lb._scores.map Prod.fst → u ≠ s.user_id →
      u ∉ (lb.insert_user_score s).users ∧
      (lb.insert_user_score s).get_user_placement u = none := by
  obtain ⟨pidx, hfp⟩ : ∃ pidx,
      find_place_idx (insert_lb1 lb s)._scores
        (insert_scoring (insert_lb1 lb s) s) = some pidx := by
    unfold GlobalLeaderboard.insert_qualifies at hq
    exact Option.isSome_iff_exists.mp hq
  have hknd1 : ((insert_lb1 lb s)._scores.map Prod.fst).Nodup :=
    insert_lb1_keys_nodup lb s hnd
  have hdknd : ((insert_dict (insert_lb1 lb s) s pidx).map Prod.fst).Nodup :=
    insert_dict_keys_nodup _ s pidx hknd1 (insert_lb1_not_mem lb s)
  have hnotin : ∀ u ∈ lb.users, u ∉ lb._scores.map Prod.fst →
      u ≠ s.user_id → u ∉ (insert_dict (insert_lb1 lb s) s pidx).map
        Prod.fst := by
    intro u _ hu hne hmem
    rw [insert_dict_keys] at hmem
    have husub : ∀ v ∈ (insert_lb1 lb s)._scores.map Prod.fst,
        v ∈ lb._scores.map Prod.fst := insert_lb1_keys_subset lb s
    rcases List.mem_append.mp hmem with hm | hm
    · exact hu (husub u (List.mem_of_mem_take hm))
    · rcases List.mem_cons.mp hm with hm | hm
      · exact hne hm
      · exact hu (husub u (List.mem_of_mem_drop hm))
  unfold GlobalLeaderboard.insert_user_score
  rw [insert_aux_eq_some SIZE_LIMIT lb s pidx hfp]
  refine ⟨insert_lb1_total lb s, ?_, ?_⟩
  · show (insert_trim SIZE_LIMIT
        (insert_dict (insert_lb1 lb s) s pidx)).map Prod.fst
      = (insert_dict (insert_lb1 lb s) s pidx).map Prod.fst ∨
      (insert_trim SIZE_LIMIT
        (insert_dict (insert_lb1 lb s) s pidx)).map Prod.fst
      = ((insert_dict (insert_lb1 lb s) s pidx).map Prod.fst).dropLast
    by_cases hbig : SIZE_LIMIT < (insert_dict (insert_lb1 lb s) s pidx).length
    · right
      rw [insert_trim_of_big (insert_dict_ne_nil _ s pidx) hdknd hbig,
        List.map_dropLast]
    · left
      rw [insert_trim_of_small hbig]
  · intro u hu hnotintop hne
    have hmem := hnotin u hu hnotintop hne
    constructor
    · exact hmem
    · exact get_user_placement_eq_none _ u hmem

/-- Witness for C6: user 3 was a beyond-top participant; after user 2's
qualifying insert, user 3 is gone from `users`, has no placement, and
`total_scores` is untouched. -/
theorem C6_insert_users_rebuilt_witness :
    (lbC6b.insert_user_score ⟨2, "", 0, 150⟩).total_scores
      = lbC6b.total_scores ∧
    (3 : Nat) ∉ (lbC6b.insert_user_score ⟨2, "", 0, 150⟩).users ∧
    (lbC6b.insert_user_score ⟨2, "", 0, 150⟩).get_user_placement 3
      = none :=
  have h := C6_insert_users_rebuilt lbC6b ⟨2, "", 0, 150⟩
    (by decide) (by decide)
  ⟨h.1, (h.2.2 3 (by decide) (by decide) (by decide)).1,
    (h.2.2 3 (by decide) (by decide) (by decide)).2⟩

/-- **C7** (counterexample): when the map resolves but its leaderboard is
disabled, `from_db` (and `from_md5` on a cache miss) still return an
instance, not `None`: `refresh` merely skips loading. -/
theorem C7_disabled_lb_not_none :
    GlobalLeaderboard.from_db (FetchStatus.API, some ⟨false⟩)
      [⟨1, "", 50⟩] false ≠ none ∧
    GlobalLeaderboard.from_md5 none (FetchStatus.API, some ⟨false⟩)
      [⟨1, "", 50⟩] false ≠ none := by
  decide

/-- **C7** (amended): acquisition returns `None` only when the map fails
to resolve; a resolved map with a disabled leaderboard yields `Some` of
an instance whose score data stays empty (refresh is skipped). -/
theorem C7_from_db_none_only_on_missing (st : FetchStatus) (b : Beatmap)
    (rows : List ScoreRow) (pp : Bool) (hlb : b.has_leaderboard = false) :
    GlobalLeaderboard.from_db (st, some b) rows pp
      = some { uses_ppboard := pp, _scores := [], users := [],
               total_scores := 0, bmap := b, bmap_fetch := st,
               lb_fetch := FetchStatus.NONE } ∧
    GlobalLeaderboard.from_md5 none (st, some b) rows pp
      = GlobalLeaderboard.from_db (st, some b) rows pp ∧
    GlobalLeaderboard.from_db (st, none) rows pp = none := by
  refine ⟨?_, rfl, rfl⟩
  unfold GlobalLeaderboard.from_db GlobalLeaderboard.refresh
  simp [hlb]

/-- Witness for C7 at a concrete disabled-leaderboard map. -/
theorem C7_from_db_none_only_on_missing_witness :
    GlobalLeaderboard.from_db (FetchStatus.API, some ⟨false⟩)
        [⟨5, "x", 7⟩] true
      = some { uses_ppboard := true, _scores := [], users := [],
               total_scores := 0, bmap := ⟨false⟩,
               bmap_fetch := FetchStatus.API,
               lb_fetch := FetchStatus.NONE } ∧
    GlobalLeaderboard.from_md5 none (FetchStatus.API, some ⟨false⟩)
        [⟨5, "x", 7⟩] true
      = GlobalLeaderboard.from_db (FetchStatus.API, some ⟨false⟩)
          [⟨5, "x", 7⟩] true ∧
    GlobalLeaderboard.from_db (FetchStatus.API, none) [⟨5, "x", 7⟩] true
      = none :=
  C7_from_db_none_only_on_missing FetchStatus.API ⟨false⟩
    [⟨5, "x", 7⟩] true rfl

/-- **C8**: user B (id 2) holds a top entry at 90 and submits a higher
score of 95 — the remove-first step deletes the old entry, then the scan
over the remaining entries (only A at 100) finds no strictly smaller
value and returns, so B's score is dropped entirely: B appears zero
times in `_scores` and in `users`, not exactly once as the claim states. -/
theorem C8_reinsert_drops_user :
    lbAB.user_in_top 2 = true ∧
    (lbAB.get_user_score 2).map ScoreRow.scoring = some 90 ∧
    insert_scoring lbAB ⟨2, "B", 0, 95⟩ = 95 ∧
    (lbAB.insert_user_score ⟨2, "B", 0, 95⟩)._scores.map Prod.fst = [1] ∧
    (lbAB.insert_user_score ⟨2, "B", 0, 95⟩).user_in_top 2 = false ∧
    (lbAB.insert_user_score ⟨2, "B", 0, 95⟩).users = [1] := by
  decide

/-- **C9**: with the size bound at 3 and ranked users A/B/C at
100/90/80, inserting 95 for new user D yields ranked keys [A, D, B]
(values 100/95/90); C is evicted from `_scores` but remains in `users`. -/
theorem C9_insertion_correctness :
    (lbABC.insert_user_score_aux 3 ⟨4, "D", 0, 95⟩)._scores
      = [(1, ⟨1, "A", 100⟩), (4, ⟨4, "D", 95⟩), (2, ⟨2, "B", 90⟩)] ∧
    (lbABC.insert_user_score_aux 3 ⟨4, "D", 0, 95⟩).users = [1, 4, 2, 3] ∧
    (3 : Nat) ∉ (lbABC.insert_user_score_aux 3
      ⟨4, "D", 0, 95⟩)._scores.map Prod.fst ∧
    (3 : Nat) ∈ (lbABC.insert_user_score_aux 3 ⟨4, "D", 0, 95⟩).users := by
  decide

/-- **C10**: removing a user who holds no entry in `_scores` is a silent
no-op: the whole state (in particular `_scores`, `users` and
`total_scores`) is unchanged and, the guard being the membership test
itself, no failure path is reached. -/
theorem C10_remove_nonmember_noop (lb : GlobalLeaderboard) (u : Nat)
    (h : lb.user_in_top u = false) : lb.remove_user_score u = lb := by
  simp [GlobalLeaderboard.remove_user_score, h]

/-- Witness for C10: removing absent user 5 leaves the state unchanged. -/
theorem C10_remove_nonmember_noop_witness :
    lbAB.user_in_top 5 = false ∧ lbAB.remove_user_score 5 = lbAB :=
  ⟨by decide, C10_remove_nonmember_noop lbAB 5 (by decide)⟩
